import Mathlib

/-!
Shallow embedding of the member-resolution and caching subsystem of
`arin-irr-syncer`: the module containing `parseMemberSpecs`,
`sanitizeListName`, `cacheKey`, `queryBgpq4ExpandedASNs`,
`queryBgpq4ExpandedASNsCached`, `flattenMemberWithBgpq4` and
`resolveMembers`.

Modelling conventions:
- JavaScript numbers that the code only ever uses as integral values
  (`depth`, timeouts) are modelled as `Int` / `Nat`.
- `undefined`-able values are `Option`; the JS nullish coalescing
  `a ?? b` is `jsNullish`; JS string truthiness (`s ? x : y`) is
  `jsTruthyStr`.
- The external `bgpq4` invocation (process spawn + JSON parse + bucket
  extraction, i.e. everything behind `execFileAsync` plus the output
  post-processing) is abstracted as an oracle
  `ExecFn : List String → Nat → Except String (List String)` mapping the
  argv built by the code and the timeout to either a diagnostic failure
  or the extracted `AS…` string list.  The argv construction itself
  (`buildBgpq4Args`, from the body of `queryBgpq4ExpandedASNs`) is
  embedded concretely from the source.
- The cache (`FLATTEN_CACHE`) is embedded in two views:
  * `AsyncState` / `startCachedQuery` / `settlePromise`: the
    promise-level small-step view.  The synchronous body of
    `queryBgpq4ExpandedASNsCached` (lookup, `Map.set`, starting the
    producer) runs before any suspension point; the `.catch` eviction
    runs when the underlying promise rejects (`settlePromise`).
  * `SState` / `queryBgpq4ExpandedASNsCached`: the sequential big-step
    collapse in which each cached call is awaited to completion before
    the caller continues — exactly how `flattenMemberWithBgpq4` and
    `resolveMembers` use the cache (they `await` every query).  On
    failure the code `Map.set`s the promise and the `.catch` handler
    then `Map.delete`s the key; the collapsed net effect is that the key
    is absent afterwards (`assocErase`).
-/

/-- JS `String.prototype.trim()`: strip leading and trailing whitespace.
Written over the character list so that it reduces inside the kernel. -/
def jsTrim (s : String) : String :=
  (((s.toList.dropWhile Char.isWhitespace).reverse.dropWhile Char.isWhitespace).reverse).asString

/-- JS nullish coalescing `a ?? b` for optional values. -/
def jsNullish {α : Type} (a b : Option α) : Option α :=
  match a with
  | some x => some x
  | none => b

/-- JS truthiness of a `string | undefined` value: truthy iff present and non-empty. -/
def jsTruthyStr : Option String → Bool
  | some s => !(s == "")
  | none => false

/-- The `onEmpty` policy of `FlattenOptions` (`"keep" | "empty" | "error"`). -/
inductive OnEmptyPolicy where
  | keep
  | empty
  | error
deriving DecidableEq

/-- `MemberSpec` from the source: one declared AS-SET member. -/
structure MemberSpec where
  name : String
  flat : Option Bool := none
  depth : Option Int := none
  sources : Option String := none
deriving DecidableEq

/-- `FlattenOptions` from the source. -/
structure FlattenOptions where
  timeoutMs : Option Nat := none
  onEmpty : Option OnEmptyPolicy := none
deriving DecidableEq

def DEFAULT_BGPQ4_HOST : String := "whois.radb.net"

/-- `cacheKey(spec, sourcesArg)`:
`${spec.name}|${depthPart}|${sourcesPart}` where `depthPart` is
`String(spec.depth)` when `depth` is a number and `""` otherwise, and
`sourcesPart` is `sourcesArg?.trim() ?? ""`. -/
def cacheKey (spec : MemberSpec) (sourcesArg : Option String) : String :=
  let depthPart := match spec.depth with
    | some d => toString d
    | none => ""
  let sourcesPart := (sourcesArg.map jsTrim).getD ""
  spec.name ++ "|" ++ depthPart ++ "|" ++ sourcesPart

/-- One step of `name.replace(/[^A-Za-z0-9_]/g, "_")`. -/
def sanitizeChar (c : Char) : Char :=
  if ('A' ≤ c ∧ c ≤ 'Z') ∨ ('a' ≤ c ∧ c ≤ 'z') ∨ ('0' ≤ c ∧ c ≤ '9') ∨ c = '_' then c
  else '_'

/-- `sanitizeListName`: replace every character outside `[A-Za-z0-9_]` by `_`,
then `slice(0, 64)` when longer than 64 characters. -/
def sanitizeListName (name : String) : String :=
  let sanitized := (name.toList.map sanitizeChar).asString
  if sanitized.length > 64 then (sanitized.toList.take 64).asString else sanitized

/-- The argv built by `queryBgpq4ExpandedASNs` (everything pushed onto `args`):
`-j -t -h <host> -l <listName>`, then `-S <sources.trim()>` when the sources
argument is truthy with non-empty trimmed content, then `-L <depth>` when
`depth` is a number `≥ 0`, then the member name as final positional argument. -/
def buildBgpq4Args (spec : MemberSpec) (sourcesArg : Option String) : List String :=
  let listName := sanitizeListName spec.name
  let args := ["-j", "-t", "-h", DEFAULT_BGPQ4_HOST, "-l", listName]
  let args := match sourcesArg with
    | some s => if s ≠ "" ∧ 0 < (jsTrim s).length then args ++ ["-S", jsTrim s] else args
    | none => args
  let args := match spec.depth with
    | some d => if 0 ≤ d then args ++ ["-L", toString d] else args
    | none => args
  args ++ [spec.name]

/-! ### Association-list primitives modelling the JS `Map` -/

/-- `Map.get`: first entry with the given key. -/
def assocFind {κ V : Type} [DecidableEq κ] : List (κ × V) → κ → Option V
  | [], _ => none
  | e :: rest, k => if e.1 = k then some e.2 else assocFind rest k

/-- `Map.delete`: drop the entry with the given key. -/
def assocErase {κ V : Type} [DecidableEq κ] (m : List (κ × V)) (k : κ) : List (κ × V) :=
  m.filter (fun e => decide (e.1 ≠ k))

/-- `Map.set`: bind the key to the value (replacing any previous binding). -/
def assocInsert {κ V : Type} [DecidableEq κ] (m : List (κ × V)) (k : κ) (v : V) : List (κ × V) :=
  (k, v) :: assocErase m k

/-! ### Sequential (big-step) model of the cache and resolver -/

/-- The abstract external `bgpq4` run: argv and timeout to either a diagnostic
failure (non-zero exit / timeout / malformed output) or the extracted list. -/
abbrev ExecFn := List String → Nat → Except String (List String)

/-- Sequential-execution state: the `FLATTEN_CACHE` contents (settled
handles), plus two instrumentation logs — every `queryBgpq4ExpandedASNsCached`
call (`queries`) and every underlying external invocation (`invocations`). -/
structure SState where
  cache : List (String × Except String (List String))
  queries : List (String × Nat × Option String)
  invocations : List (List String × Nat)

def initS : SState := ⟨[], [], []⟩

/-- `queryBgpq4ExpandedASNs`: build the argv and run the external tool. -/
def queryBgpq4ExpandedASNs (exec : ExecFn) (spec : MemberSpec) (timeoutMs : Nat)
    (sourcesArg : Option String) : Except String (List String) :=
  exec (buildBgpq4Args spec sourcesArg) timeoutMs

/-- `queryBgpq4ExpandedASNsCached`, sequential collapse: return the cached
handle when present; otherwise run the producer, cache the result on success,
and (`Map.set` followed by the `.catch` handler's `Map.delete`) leave the key
absent on failure. -/
def queryBgpq4ExpandedASNsCached (exec : ExecFn) (spec : MemberSpec) (timeoutMs : Nat)
    (sourcesArg : Option String) (st : SState) : Except String (List String) × SState :=
  let key := cacheKey spec sourcesArg
  let st1 : SState := { st with queries := st.queries ++ [(spec.name, timeoutMs, sourcesArg)] }
  match assocFind st1.cache key with
  | some handle => (handle, st1)
  | none =>
    let st2 : SState :=
      { st1 with invocations := st1.invocations ++ [(buildBgpq4Args spec sourcesArg, timeoutMs)] }
    match queryBgpq4ExpandedASNs exec spec timeoutMs sourcesArg with
    | .error e => (.error e, { st2 with cache := assocErase st2.cache key })
    | .ok v => (.ok v, { st2 with cache := assocInsert st2.cache key (.ok v) })

/-- Errors surfaced by the resolver: a propagated adapter diagnostic, or the
`onEmpty = "error"` failure naming the member. -/
inductive ResolveError where
  | expansion (diag : String)
  | emptyExpansion (memberName : String)
deriving DecidableEq

/-- `flattenMemberWithBgpq4` over the sequential state. -/
def flattenMemberWithBgpq4 (exec : ExecFn) (spec : MemberSpec)
    (options : FlattenOptions) (sources : Option String) (st : SState) :
    Except ResolveError (List String) × SState :=
  if spec.flat.getD false = false then (.ok [spec.name], st)
  else
    match queryBgpq4ExpandedASNsCached exec spec (options.timeoutMs.getD 20000) sources st with
    | (.error e, st1) => (.error (.expansion e), st1)
    | (.ok asnsWithSources, st1) =>
      if asnsWithSources.length > 0 then (.ok asnsWithSources, st1)
      else
        match (if jsTruthyStr sources then
                 queryBgpq4ExpandedASNsCached exec spec (options.timeoutMs.getD 20000) none st1
               else (.ok [], st1)) with
        | (.error e, st2) => (.error (.expansion e), st2)
        | (.ok asnsFallback, st2) =>
          if asnsFallback.length > 0 then (.ok asnsFallback, st2)
          else
            match options.onEmpty.getD OnEmptyPolicy.keep with
            | .empty => (.ok [], st2)
            | .error => (.error (.emptyExpansion spec.name), st2)
            | .keep => (.ok [spec.name], st2)

/-- `Array.from(new Set(out))`: insertion-order deduplication, via an
accumulator of already-seen strings. -/
def dedupFirstAux : List String → List String → List String
  | [], _ => []
  | x :: xs, seen =>
    if x ∈ seen then dedupFirstAux xs seen else x :: dedupFirstAux xs (x :: seen)

def dedupFirst (xs : List String) : List String := dedupFirstAux xs []

/-- The loop body of `resolveMembers`, with the accumulated `out` explicit. -/
def resolveGo (exec : ExecFn) (options : FlattenOptions) (sources : Option String) :
    List MemberSpec → List String → SState → Except ResolveError (List String) × SState
  | [], out, st => (.ok (dedupFirst out), st)
  | spec :: rest, out, st =>
    match flattenMemberWithBgpq4 exec spec options (jsNullish spec.sources sources) st with
    | (.error e, st1) => (.error e, st1)
    | (.ok resolved, st1) => resolveGo exec options sources rest (out ++ resolved) st1

/-- `resolveMembers`: flatten every spec in order (each with its own
`spec.sources ?? sources`), concatenate, deduplicate. -/
def resolveMembers (exec : ExecFn) (specs : List MemberSpec) (options : FlattenOptions)
    (sources : Option String) (st : SState) : Except ResolveError (List String) × SState :=
  resolveGo exec options sources specs [] st

/-! ### Promise-level (small-step) model of the cache -/

/-- The lifecycle of one cached promise. -/
inductive PromiseState where
  | pending (spec : MemberSpec) (timeoutMs : Nat) (sourcesArg : Option String)
  | resolved (value : List String)
  | rejected (diag : String)
deriving DecidableEq

/-- Promise-level state: `FLATTEN_CACHE` maps keys to promise handles
(identified by allocation number); `promises` records each handle's state;
`invocations` logs every started external invocation. -/
structure AsyncState where
  nextId : Nat
  cache : List (String × Nat)
  promises : List (Nat × PromiseState)
  invocations : List (List String × Nat)
deriving DecidableEq

def initA : AsyncState := ⟨0, [], [], []⟩

/-- The synchronous body of `queryBgpq4ExpandedASNsCached`: look the key up;
on a hit return the existing handle unchanged; on a miss start the producer
(one external invocation), allocate a pending promise and `Map.set` it under
the key.  All of this happens before any suspension point. -/
def startCachedQuery (spec : MemberSpec) (timeoutMs : Nat) (sourcesArg : Option String)
    (st : AsyncState) : Nat × AsyncState :=
  let key := cacheKey spec sourcesArg
  match assocFind st.cache key with
  | some pid => (pid, st)
  | none =>
    let pid := st.nextId
    (pid,
      { nextId := pid + 1
        cache := assocInsert st.cache key pid
        promises := (pid, PromiseState.pending spec timeoutMs sourcesArg) :: st.promises
        invocations := st.invocations ++ [(buildBgpq4Args spec sourcesArg, timeoutMs)] })

/-- Settlement of a pending promise.  On fulfilment the handle resolves and
the cache is untouched; on rejection the `.catch` handler first
`Map.delete`s the key, then the rejection propagates to every awaiter. -/
def settlePromise (pid : Nat) (outcome : Except String (List String)) (st : AsyncState) :
    AsyncState :=
  match assocFind st.promises pid with
  | some (PromiseState.pending spec _ sourcesArg) =>
    match outcome with
    | .ok v =>
      { st with promises := assocInsert st.promises pid (PromiseState.resolved v) }
    | .error e =>
      { st with
          promises := assocInsert st.promises pid (PromiseState.rejected e)
          cache := assocErase st.cache (cacheKey spec sourcesArg) }
  | _ => st

/-! ### The member-specification parser -/

/-- Shallow model of the loosely-typed values handed to `parseMemberSpecs`
by the YAML layer.  `obj` carries the entries in `Object.entries` order;
as in a JS object, keys are assumed unique. -/
inductive YamlVal where
  | str (s : String)
  | num (n : Int)
  | bool (b : Bool)
  | null
  | arr (items : List YamlVal)
  | obj (fields : List (String × YamlVal))

/-- `typeof record[k] === "boolean" ? record[k] : undefined`. -/
def yamlGetBool (fields : List (String × YamlVal)) (k : String) : Option Bool :=
  match assocFind fields k with
  | some (YamlVal.bool b) => some b
  | _ => none

/-- `typeof record[k] === "number" ? record[k] : undefined`. -/
def yamlGetNum (fields : List (String × YamlVal)) (k : String) : Option Int :=
  match assocFind fields k with
  | some (YamlVal.num n) => some n
  | _ => none

/-- `typeof record[k] === "string" ? record[k] : undefined`. -/
def yamlGetStr (fields : List (String × YamlVal)) (k : String) : Option String :=
  match assocFind fields k with
  | some (YamlVal.str s) => some s
  | _ => none

/-- The per-item body of the `parseMemberSpecs` loop: a plain string becomes
one spec when its trimmed name is non-empty; a record yields one spec per
non-reserved, non-blank key, per-member config (`cfg` object) overriding the
record-level shared defaults field by field; anything else is skipped. -/
def parseOneMemberItem : YamlVal → List MemberSpec
  | YamlVal.str s =>
    let name := jsTrim s
    if name = "" then [] else [{ name := name }]
  | YamlVal.obj fields =>
    let commonFlat := yamlGetBool fields "flat"
    let commonDepth := yamlGetNum fields "depth"
    let commonSources := (yamlGetStr fields "source").map jsTrim
    fields.filterMap (fun entry =>
      if entry.1 = "flat" ∨ entry.1 = "depth" ∨ entry.1 = "source" then none
      else
        let name := jsTrim entry.1
        if name = "" then none
        else
          match entry.2 with
          | YamlVal.obj nested =>
            some { name := name
                   flat := jsNullish (yamlGetBool nested "flat") commonFlat
                   depth := jsNullish (yamlGetNum nested "depth") commonDepth
                   sources := jsNullish ((yamlGetStr nested "source").map jsTrim)
                     commonSources }
          | _ =>
            some { name := name, flat := commonFlat, depth := commonDepth,
                   sources := commonSources })
  | _ => []

def parseMemberItems : List YamlVal → List MemberSpec
  | [] => []
  | item :: rest => parseOneMemberItem item ++ parseMemberItems rest

/-- `parseMemberSpecs`: non-arrays parse to `[]`; arrays concatenate the
per-item results in order. -/
def parseMemberSpecs : YamlVal → List MemberSpec
  | YamlVal.arr items => parseMemberItems items
  | _ => []

/-! ### Denotational value of a query / flatten / resolve run

When the external tool behaves as a function of its argv and timeout, the
value produced by a (cached) query is determined by the argv alone; these
state-free companions compute that value.  They are related to the stateful
functions by the `CacheFaithful` invariant below. -/

/-- The state-free value of `flattenMemberWithBgpq4`, reading every query
directly from the oracle instead of through the cache. -/
def flattenValue (exec : ExecFn) (spec : MemberSpec) (options : FlattenOptions)
    (sources : Option String) : Except ResolveError (List String) :=
  if spec.flat.getD false = false then .ok [spec.name]
  else
    match queryBgpq4ExpandedASNs exec spec (options.timeoutMs.getD 20000) sources with
    | .error e => .error (.expansion e)
    | .ok l1 =>
      if l1.length > 0 then .ok l1
      else
        match (if jsTruthyStr sources then
                 queryBgpq4ExpandedASNs exec spec (options.timeoutMs.getD 20000) none
               else .ok []) with
        | .error e => .error (.expansion e)
        | .ok l2 =>
          if l2.length > 0 then .ok l2
          else
            match options.onEmpty.getD OnEmptyPolicy.keep with
            | .empty => .ok []
            | .error => .error (.emptyExpansion spec.name)
            | .keep => .ok [spec.name]

/-- The state-free value of `resolveMembers` (with explicit accumulator). -/
def resolveValue (exec : ExecFn) (options : FlattenOptions) (sources : Option String) :
    List MemberSpec → List String → Except ResolveError (List String)
  | [], out => .ok (dedupFirst out)
  | spec :: rest, out =>
    match flattenValue exec spec options (jsNullish spec.sources sources) with
    | .error e => .error e
    | .ok resolved => resolveValue exec options sources rest (out ++ resolved)

/-- The oracle's result coincides on invocations whose cache keys coincide.
This holds of the real external tool whenever distinct query triples have
distinct keys (e.g. when names and source lists contain no `|`, the key
determines the argv); it fails exactly on cache-key collisions. -/
def KeyDet (exec : ExecFn) : Prop :=
  ∀ spec1 src1 spec2 src2 t, cacheKey spec1 src1 = cacheKey spec2 src2 →
    exec (buildBgpq4Args spec1 src1) t = exec (buildBgpq4Args spec2 src2) t

/-- Every cached handle holds exactly the oracle's value for (any spec and
sources argument producing) its key, at the given timeout. -/
def CacheFaithful (exec : ExecFn) (t : Nat) (st : SState) : Prop :=
  ∀ k v, assocFind st.cache k = some v →
    ∀ spec src, cacheKey spec src = k → v = queryBgpq4ExpandedASNs exec spec t src

/-! ### Concrete oracles and specs used by counterexamples and witnesses -/

/-- Oracle that answers empty exactly when a `-S` flag is passed, and
`["AS1", "AS2"]` otherwise. -/
def execSourcex : ExecFn := fun args _ => if args.contains "-S" then .ok [] else .ok ["AS1", "AS2"]

/-- Oracle whose every answer is the empty expansion. -/
def execAllEmpty : ExecFn := fun _ _ => .ok []

/-- Oracle distinguishing the final positional argument (the member name):
`["AS2"]` for member `x`, `["AS1"]` otherwise. -/
def execLastArg : ExecFn := fun args _ =>
  if args.getLast? == some "x" then .ok ["AS2"] else .ok ["AS1"]

/-- A flat spec whose name contains the `|` key delimiter. -/
def specPipe : MemberSpec := ⟨"x|1|S", some true, none, none⟩

/-- A flat spec whose (name, depth, sources) collide in the cache key with
`specPipe`'s: both keys are `"x|1|S||"`. -/
def specCollide : MemberSpec := ⟨"x", some true, some 1, some "S||"⟩

/-- Oracle with one constant successful answer. -/
def execConst : ExecFn := fun _ _ => .ok ["AS64500"]

/-- Oracle failing exactly for member `BAD` (final positional argument). -/
def execBad : ExecFn := fun args _ =>
  if args.getLast? == some "BAD" then .error "boom" else .ok ["AS9"]

/-! ### Helper lemmas about the association list -/

theorem assocFind_insert_self {κ V : Type} [DecidableEq κ] (m : List (κ × V)) (k : κ) (v : V) :
    assocFind (assocInsert m k v) k = some v := by
  simp [assocInsert, assocFind]

theorem assocFind_erase_self {κ V : Type} [DecidableEq κ] (m : List (κ × V)) (k : κ) :
    assocFind (assocErase m k) k = none := by
  induction m with
  | nil => rfl
  | cons e rest ih =>
    by_cases h : e.1 = k
    · simpa [assocErase, h] using ih
    · simpa [assocErase, assocFind, h] using ih

theorem assocFind_erase_ne {κ V : Type} [DecidableEq κ] (m : List (κ × V)) (k k' : κ)
    (h : k' ≠ k) : assocFind (assocErase m k) k' = assocFind m k' := by
  induction m with
  | nil => rfl
  | cons e rest ih =>
    by_cases he : e.1 = k
    · have h' : k ≠ k' := fun hk => h hk.symm
      simpa [assocErase, assocFind, List.filter_cons, he, h'] using ih
    · by_cases he' : e.1 = k'
      · simp [assocErase, assocFind, List.filter_cons, he, he', h]
      · simpa [assocErase, assocFind, List.filter_cons, he, he'] using ih

theorem assocFind_insert_ne {κ V : Type} [DecidableEq κ] (m : List (κ × V)) (k k' : κ) (v : V)
    (h : k' ≠ k) : assocFind (assocInsert m k v) k' = assocFind m k' := by
  have hk : k ≠ k' := fun hk => h hk.symm
  simp only [assocInsert, assocFind, hk, if_neg hk]
  exact assocFind_erase_ne m k k' h

/-- `cacheKey` only reads the name, the depth and the trimmed sources argument. -/
theorem cacheKey_congr (spec1 spec2 : MemberSpec) (src1 src2 : Option String)
    (hn : spec2.name = spec1.name) (hd : spec2.depth = spec1.depth)
    (hs : (src2.map jsTrim).getD "" = (src1.map jsTrim).getD "") :
    cacheKey spec2 src2 = cacheKey spec1 src1 := by
  simp [cacheKey, hn, hd, hs]

/-! ### Helper lemmas about `startCachedQuery` -/

/-- After a call, the key is bound to the handle the call returned. -/
theorem startCachedQuery_find_self (spec : MemberSpec) (t : Nat) (src : Option String)
    (st : AsyncState) :
    assocFind ((startCachedQuery spec t src st).2).cache (cacheKey spec src)
      = some (startCachedQuery spec t src st).1 := by
  cases hfind : assocFind st.cache (cacheKey spec src) with
  | some pid => simp [startCachedQuery, hfind]
  | none => simp [startCachedQuery, hfind, assocFind_insert_self]

/-- A call whose key is already bound returns the existing handle and changes
nothing: the producer is not started. -/
theorem startCachedQuery_cached (st : AsyncState) (spec : MemberSpec) (t : Nat)
    (src : Option String) (pid : Nat)
    (h : assocFind st.cache (cacheKey spec src) = some pid) :
    startCachedQuery spec t src st = (pid, st) := by
  simp [startCachedQuery, h]

/-- A second call with the same cache key returns the first call's handle and
leaves the state exactly as the first call left it. -/
theorem startCachedQuery_dedup (spec1 spec2 : MemberSpec) (t1 t2 : Nat)
    (src1 src2 : Option String) (st : AsyncState)
    (hk : cacheKey spec2 src2 = cacheKey spec1 src1) :
    startCachedQuery spec2 t2 src2 (startCachedQuery spec1 t1 src1 st).2
      = ((startCachedQuery spec1 t1 src1 st).1, (startCachedQuery spec1 t1 src1 st).2) :=
  startCachedQuery_cached _ spec2 t2 src2 _ (hk ▸ startCachedQuery_find_self spec1 t1 src1 st)

/-! ### Claim theorems -/

/-- Claim C5: for every spec whose `flat` is false or unset,
`flattenMemberWithBgpq4` returns exactly `[spec.name]` and leaves the state
untouched — neither the cache nor the adapter is consulted — for every
adapter, every options value and every sources argument. -/
theorem c5_nonflat_passthrough (exec : ExecFn) (spec : MemberSpec)
    (options : FlattenOptions) (sources : Option String) (st : SState)
    (h : spec.flat.getD false = false) :
    flattenMemberWithBgpq4 exec spec options sources st = (.ok [spec.name], st) := by
  simp [flattenMemberWithBgpq4, h]

/-- Witness for C5: a concrete non-flat spec under an always-failing adapter. -/
theorem c5_nonflat_passthrough_witness :
    (({ name := "AS-BAR" } : MemberSpec).flat.getD false = false) ∧
    flattenMemberWithBgpq4 (fun _ _ => .error "never") { name := "AS-BAR" } {} none initS
      = (.ok ["AS-BAR"], initS) :=
  ⟨rfl, c5_nonflat_passthrough (fun _ _ => .error "never") { name := "AS-BAR" } {} none initS rfl⟩

/-- Claim C1: when the cache holds an entry for a key, the cached query
returns the existing handle without starting the producer; a second call with
identical (name, depth, trimmed sources) — before any settlement, i.e. also
for concurrent callers of a still-pending computation — returns the first
call's handle with the state unchanged, and from a fresh cache two such calls
perform exactly one underlying adapter invocation. -/
theorem c1_dedup :
    (∀ st spec t src pid, assocFind st.cache (cacheKey spec src) = some pid →
        startCachedQuery spec t src st = (pid, st)) ∧
    (∀ spec1 spec2 t1 t2 src1 src2 st,
        spec2.name = spec1.name → spec2.depth = spec1.depth →
        (src2.map jsTrim).getD "" = (src1.map jsTrim).getD "" →
        startCachedQuery spec2 t2 src2 (startCachedQuery spec1 t1 src1 st).2
          = ((startCachedQuery spec1 t1 src1 st).1, (startCachedQuery spec1 t1 src1 st).2)) ∧
    (∀ spec1 spec2 t1 t2 src1 src2,
        spec2.name = spec1.name → spec2.depth = spec1.depth →
        (src2.map jsTrim).getD "" = (src1.map jsTrim).getD "" →
        ((startCachedQuery spec2 t2 src2
            (startCachedQuery spec1 t1 src1 initA).2).2).invocations.length = 1) := by
  refine ⟨fun st spec t src pid h => startCachedQuery_cached st spec t src pid h,
    fun spec1 spec2 t1 t2 src1 src2 st hn hd hs =>
      startCachedQuery_dedup spec1 spec2 t1 t2 src1 src2 st (cacheKey_congr _ _ _ _ hn hd hs),
    fun spec1 spec2 t1 t2 src1 src2 hn hd hs => ?_⟩
  rw [startCachedQuery_dedup spec1 spec2 t1 t2 src1 src2 initA
    (cacheKey_congr _ _ _ _ hn hd hs)]
  simp [startCachedQuery, initA, assocFind]

/-- Witness for C1: two concrete calls differing in timeout, flat flag and
whitespace of the sources argument still share a single invocation. -/
theorem c1_dedup_witness :
    ((startCachedQuery ⟨"AS-X", none, none, none⟩ 5 (some " ")
        (startCachedQuery ⟨"AS-X", some true, none, none⟩ 20000 none initA).2).2).invocations.length
      = 1 :=
  c1_dedup.2.2 ⟨"AS-X", some true, none, none⟩ ⟨"AS-X", none, none, none⟩ 20000 5 none (some " ")
    rfl rfl (by decide)

/-- Claim C10: the cache key reads only the spec's name and depth and the
trimmed sources argument; a second cached-query call with the same
(name, depth, sources) but different timeout and flat flag returns the handle
created by the first call, leaves the state unchanged, and the stored pending
computation keeps the first call's timeout — the second timeout has no
effect. -/
theorem c10_key_ignores_timeout_and_flat :
    (∀ spec1 spec2 a, spec1.name = spec2.name → spec1.depth = spec2.depth →
        cacheKey spec1 a = cacheKey spec2 a) ∧
    (∀ n d f1 f2 ms1 ms2 src t1 t2,
        startCachedQuery ⟨n, f2, d, ms2⟩ t2 src
            (startCachedQuery ⟨n, f1, d, ms1⟩ t1 src initA).2
          = ((startCachedQuery ⟨n, f1, d, ms1⟩ t1 src initA).1,
             (startCachedQuery ⟨n, f1, d, ms1⟩ t1 src initA).2) ∧
        assocFind ((startCachedQuery ⟨n, f1, d, ms1⟩ t1 src initA).2).promises
            ((startCachedQuery ⟨n, f1, d, ms1⟩ t1 src initA).1)
          = some (PromiseState.pending ⟨n, f1, d, ms1⟩ t1 src)) := by
  refine ⟨fun spec1 spec2 a hn hd => cacheKey_congr spec2 spec1 a a hn hd rfl,
    fun n d f1 f2 ms1 ms2 src t1 t2 => ⟨?_, ?_⟩⟩
  · exact startCachedQuery_dedup ⟨n, f1, d, ms1⟩ ⟨n, f2, d, ms2⟩ t1 t2 src src initA rfl
  · simp [startCachedQuery, initA, assocFind]

/-- Witness for C10 at concrete values (pinned flags and timeouts). -/
theorem c10_key_ignores_timeout_and_flat_witness :
    cacheKey ⟨"AS-K", some true, some 3, some "X"⟩ (some "RADB")
      = cacheKey ⟨"AS-K", some false, some 3, none⟩ (some "RADB") :=
  c10_key_ignores_timeout_and_flat.1 ⟨"AS-K", some true, some 3, some "X"⟩
    ⟨"AS-K", some false, some 3, none⟩ (some "RADB") rfl rfl

/-- Claim C2: when the producer of a fresh cached expansion fails, the entry
for that key is gone once the failure settles, and a subsequent call with the
same key starts the producer afresh (two underlying invocations in total);
fulfilment never touches the cache, and a call never removes an existing
entry — successful entries are never evicted. -/
theorem c2_failure_not_cached :
    (∀ spec t src e st,
        assocFind st.cache (cacheKey spec src) = none →
        assocFind ((settlePromise (startCachedQuery spec t src st).1 (.error e)
            (startCachedQuery spec t src st).2)).cache (cacheKey spec src) = none ∧
        ((startCachedQuery spec t src
            (settlePromise (startCachedQuery spec t src st).1 (.error e)
              (startCachedQuery spec t src st).2)).2).invocations.length
          = st.invocations.length + 2) ∧
    (∀ pid v st, (settlePromise pid (.ok v) st).cache = st.cache) ∧
    (∀ spec t src st k w, assocFind st.cache k = some w →
        assocFind ((startCachedQuery spec t src st).2).cache k = some w) := by
  refine ⟨?_, ?_, ?_⟩
  · intro spec t src e st hfind
    simp only [startCachedQuery, hfind]
    constructor
    · simp [settlePromise, assocFind, assocFind_erase_self]
    · simp [settlePromise, startCachedQuery, assocFind, assocFind_erase_self]
  · intro pid v st
    cases hfind : assocFind st.promises pid with
    | none => simp [settlePromise, hfind]
    | some p => cases p <;> simp [settlePromise, hfind]
  · intro spec t src st k w h
    cases hfind : assocFind st.cache (cacheKey spec src) with
    | some pid => simp [startCachedQuery, hfind, h]
    | none =>
      have hk : k ≠ cacheKey spec src := by
        intro hkk; rw [hkk] at h; rw [h] at hfind; cases hfind
      simp [startCachedQuery, hfind, assocFind_insert_ne _ _ _ _ hk, h]

/-- Witness for C2: a concrete failed expansion is evicted and retried. -/
theorem c2_failure_not_cached_witness :
    assocFind ((settlePromise (startCachedQuery ⟨"AS-X", none, none, none⟩ 5 none initA).1
        (.error "boom") (startCachedQuery ⟨"AS-X", none, none, none⟩ 5 none initA).2)).cache
        (cacheKey ⟨"AS-X", none, none, none⟩ none) = none ∧
    ((startCachedQuery ⟨"AS-X", none, none, none⟩ 5 none
        (settlePromise (startCachedQuery ⟨"AS-X", none, none, none⟩ 5 none initA).1
          (.error "boom")
          (startCachedQuery ⟨"AS-X", none, none, none⟩ 5 none initA).2)).2).invocations.length
      = initA.invocations.length + 2 :=
  c2_failure_not_cached.1 ⟨"AS-X", none, none, none⟩ 5 none "boom" initA rfl

/-! ### String helper lemmas -/

theorem string_length_pos_iff (s : String) : 0 < s.length ↔ s ≠ "" := by
  cases s with
  | mk data =>
    cases data with
    | nil => simp [String.length]
    | cons c cs =>
      simp only [String.length, List.length_cons]
      constructor
      · intro _ h
        exact List.cons_ne_nil c cs (congrArg String.data h)
      · intro _
        exact Nat.succ_pos _

/-- The `-S` guard of the source (`sourcesArg && sourcesArg.trim().length > 0`)
is equivalent to the trimmed content being non-empty. -/
theorem sflag_cond_iff (s : String) : (s ≠ "" ∧ 0 < (jsTrim s).length) ↔ jsTrim s ≠ "" := by
  constructor
  · rintro ⟨-, h⟩
    exact (string_length_pos_iff _).mp h
  · intro h
    refine ⟨fun hs => h ?_, (string_length_pos_iff _).mpr h⟩
    subst hs
    rfl

/-- `sanitizeListName` always equals the sanitized character list truncated
to (at most) 64 characters. -/
theorem sanitizeListName_take (name : String) :
    sanitizeListName name = ((name.toList.map sanitizeChar).take 64).asString := by
  unfold sanitizeListName
  dsimp only
  split
  · rfl
  · next h =>
    have hle : (name.toList.map sanitizeChar).length ≤ 64 := Nat.not_lt.mp h
    rw [List.take_of_length_le hle]

/-- Claim C9: the adapter invocation consists of the structured-output flags,
a list-label equal to the member name with every character outside
`[A-Za-z0-9_]` replaced by `_` and truncated to at most 64 characters, a
`-S <sources>` flag exactly when a sources string with non-empty trimmed
content is supplied, a depth flag exactly when `spec.depth` is a number
`≥ 0`, and the member name as final positional argument. -/
theorem c9_invocation_args (spec : MemberSpec) (src : Option String) :
    buildBgpq4Args spec src =
      ["-j", "-t", "-h", "whois.radb.net", "-l",
        ((spec.name.toList.map sanitizeChar).take 64).asString]
      ++ (match src with
          | some s => if jsTrim s ≠ "" then ["-S", jsTrim s] else []
          | none => [])
      ++ (match spec.depth with
          | some d => if 0 ≤ d then ["-L", toString d] else []
          | none => [])
      ++ [spec.name] := by
  simp only [buildBgpq4Args, sanitizeListName_take, DEFAULT_BGPQ4_HOST]
  cases src with
  | none =>
    cases hd : spec.depth with
    | none => simp
    | some d => by_cases h : (0 : Int) ≤ d <;> simp [h]
  | some s =>
    by_cases hs : jsTrim s ≠ ""
    · have hc : s ≠ "" ∧ 0 < (jsTrim s).length := (sflag_cond_iff s).mpr hs
      cases hd : spec.depth with
      | none => simp [hc, hs]
      | some d => by_cases h : (0 : Int) ≤ d <;> simp [hc, hs, h]
    · have hc : ¬(s ≠ "" ∧ 0 < (jsTrim s).length) := fun hcc => hs ((sflag_cond_iff s).mp hcc)
      cases hd : spec.depth with
      | none => simp [hc, hs]
      | some d => by_cases h : (0 : Int) ≤ d <;> simp [hc, hs, h]

/-- Claim C7: `resolveMembers` walks the specs in input order and fails
fast — when flatten of the head spec raises, the same error (and the state at
that point) propagates out and the remaining specs are never attempted; when
it succeeds, resolution continues with the concatenated accumulator. -/
theorem c7_failfast (exec : ExecFn) (options : FlattenOptions) (dsrc : Option String) :
    (∀ specs st, resolveMembers exec specs options dsrc st = resolveGo exec options dsrc specs [] st) ∧
    (∀ spec rest acc st e st1,
        flattenMemberWithBgpq4 exec spec options (jsNullish spec.sources dsrc) st
          = (.error e, st1) →
        resolveGo exec options dsrc (spec :: rest) acc st = (.error e, st1)) ∧
    (∀ spec rest acc st r st1,
        flattenMemberWithBgpq4 exec spec options (jsNullish spec.sources dsrc) st
          = (.ok r, st1) →
        resolveGo exec options dsrc (spec :: rest) acc st
          = resolveGo exec options dsrc rest (acc ++ r) st1) := by
  refine ⟨fun specs st => rfl, ?_, ?_⟩
  · intro spec rest acc st e st1 h
    simp [resolveGo, h]
  · intro spec rest acc st r st1 h
    simp [resolveGo, h]

/-- Witness for C7: a concrete failing first member aborts resolution with
its error; the second member is never processed. -/
theorem c7_failfast_witness :
    resolveGo execBad {} none [⟨"BAD", some true, none, none⟩, ⟨"AS-OK", none, none, none⟩] [] initS
      = (.error (ResolveError.expansion "boom"),
         (flattenMemberWithBgpq4 execBad ⟨"BAD", some true, none, none⟩ {} none initS).2) :=
  (c7_failfast execBad {} none).2.1 ⟨"BAD", some true, none, none⟩
    [⟨"AS-OK", none, none, none⟩] [] initS (ResolveError.expansion "boom")
    (flattenMemberWithBgpq4 execBad ⟨"BAD", some true, none, none⟩ {} none initS).2 rfl

/-! ### Parser helper lemmas -/

/-- Every spec produced by the per-item parser has a non-empty name. -/
theorem parseOneMemberItem_name_ne (item : YamlVal) (spec : MemberSpec)
    (h : spec ∈ parseOneMemberItem item) : spec.name ≠ "" := by
  cases item with
  | str s =>
    by_cases hs : jsTrim s = ""
    · simp [parseOneMemberItem, hs] at h
    · simp [parseOneMemberItem, hs] at h
      rw [h]
      exact hs
  | obj fields =>
    dsimp only [parseOneMemberItem] at h
    rw [List.mem_filterMap] at h
    obtain ⟨p, hp, hf⟩ := h
    by_cases hr : p.1 = "flat" ∨ p.1 = "depth" ∨ p.1 = "source"
    · simp [hr] at hf
    · by_cases hn : jsTrim p.1 = ""
      · simp [hr, hn] at hf
      · cases p2 : p.2 <;> simp [hr, hn, p2] at hf <;> (rw [← hf]; exact hn)
  | num n => simp [parseOneMemberItem] at h
  | bool b => simp [parseOneMemberItem] at h
  | null => simp [parseOneMemberItem] at h
  | arr items => simp [parseOneMemberItem] at h

/-- Claim C8: the parser turns the documented mixed input into exactly the
documented specs; every produced spec has a non-empty name (empty and
whitespace-only names are dropped, nothing is raised — the function is
total); for a mapping item the produced names are exactly the trimmed
non-reserved keys in entry order, one spec per named entry; record-level
shared defaults (`flat`/`depth`/`source`) are inherited by every member of
the mapping, with distinct per-member configuration overriding them only for
the fields explicitly present on the member's config object (concrete
instance: `AS-C` with no config inherits all three defaults, `AS-D`
overrides only `depth`); and in general each produced spec's field equals
the per-member config value when that field is explicitly present there and
the record-level shared default otherwise. -/
theorem c8_parse_member_specs :
    (parseMemberSpecs (YamlVal.arr [YamlVal.str "AS-A",
        YamlVal.obj [("AS-B", YamlVal.obj [("flat", YamlVal.bool true),
          ("depth", YamlVal.num 2)])]])
      = [{ name := "AS-A" }, { name := "AS-B", flat := some true, depth := some 2 }]) ∧
    (∀ v spec, spec ∈ parseMemberSpecs v → spec.name ≠ "") ∧
    (∀ fields, (parseMemberSpecs (YamlVal.arr [YamlVal.obj fields])).map MemberSpec.name
      = fields.filterMap (fun p =>
          if p.1 = "flat" ∨ p.1 = "depth" ∨ p.1 = "source" then none
          else if jsTrim p.1 = "" then none else some (jsTrim p.1))) ∧
    (parseMemberSpecs (YamlVal.arr [YamlVal.obj
        [("flat", YamlVal.bool true), ("depth", YamlVal.num 3), ("source", YamlVal.str " RADB "),
         ("AS-C", YamlVal.null), ("AS-D", YamlVal.obj [("depth", YamlVal.num 1)])]])
      = [{ name := "AS-C", flat := some true, depth := some 3, sources := some "RADB" },
         { name := "AS-D", flat := some true, depth := some 1, sources := some "RADB" }]) ∧
    (∀ fields, parseMemberSpecs (YamlVal.arr [YamlVal.obj fields])
      = fields.filterMap (fun p =>
          if p.1 = "flat" ∨ p.1 = "depth" ∨ p.1 = "source" then none
          else if jsTrim p.1 = "" then none
          else some
            { name := jsTrim p.1
              flat := match p.2 with
                | YamlVal.obj nested =>
                  match yamlGetBool nested "flat" with
                  | some b => some b
                  | none => yamlGetBool fields "flat"
                | _ => yamlGetBool fields "flat"
              depth := match p.2 with
                | YamlVal.obj nested =>
                  match yamlGetNum nested "depth" with
                  | some n => some n
                  | none => yamlGetNum fields "depth"
                | _ => yamlGetNum fields "depth"
              sources := match p.2 with
                | YamlVal.obj nested =>
                  match yamlGetStr nested "source" with
                  | some str0 => some (jsTrim str0)
                  | none => (yamlGetStr fields "source").map jsTrim
                | _ => (yamlGetStr fields "source").map jsTrim })) := by
  refine ⟨by decide, ?_, ?_, by decide, ?_⟩
  · intro v spec h
    cases v with
    | arr items =>
      dsimp only [parseMemberSpecs] at h
      induction items with
      | nil => cases h
      | cons item rest ih =>
        dsimp only [parseMemberItems] at h
        rcases List.mem_append.mp h with h1 | h2
        · exact parseOneMemberItem_name_ne item spec h1
        · exact ih h2
    | str s => cases h
    | num n => cases h
    | bool b => cases h
    | null => cases h
    | obj fields => cases h
  · intro fields
    show (parseOneMemberItem (YamlVal.obj fields) ++ parseMemberItems []).map MemberSpec.name = _
    rw [show parseMemberItems [] = [] from rfl, List.append_nil]
    dsimp only [parseOneMemberItem]
    rw [List.map_filterMap]
    congr 1
    funext p
    by_cases hr : p.1 = "flat" ∨ p.1 = "depth" ∨ p.1 = "source"
    · simp [hr]
    · by_cases hn : jsTrim p.1 = ""
      · simp [hr, hn]
      · cases p2 : p.2 <;> simp [hr, hn]
  · intro fields
    show parseOneMemberItem (YamlVal.obj fields) ++ parseMemberItems [] = _
    rw [show parseMemberItems [] = [] from rfl, List.append_nil]
    dsimp only [parseOneMemberItem]
    congr 1
    funext p
    by_cases hr : p.1 = "flat" ∨ p.1 = "depth" ∨ p.1 = "source"
    · simp [hr]
    · by_cases hn : jsTrim p.1 = ""
      · simp [hr, hn]
      · cases p2 : p.2 with
        | str s => simp [hr, hn]
        | num n => simp [hr, hn]
        | bool b => simp [hr, hn]
        | null => simp [hr, hn]
        | arr items => simp [hr, hn]
        | obj nested =>
          simp [hr, hn, jsNullish]
          refine ⟨?_, ?_, ?_⟩
          · cases yamlGetBool nested "flat" <;> rfl
          · cases yamlGetNum nested "depth" <;> rfl
          · cases yamlGetStr nested "source" <;> rfl

/-- Witness for C8: the parsed config-object spec indeed has a non-empty name. -/
theorem c8_parse_member_specs_witness :
    ({ name := "AS-B", flat := some true, depth := some 2 } : MemberSpec).name ≠ "" :=
  c8_parse_member_specs.2.1
    (YamlVal.arr [YamlVal.str "AS-A",
      YamlVal.obj [("AS-B", YamlVal.obj [("flat", YamlVal.bool true), ("depth", YamlVal.num 2)])]])
    { name := "AS-B", flat := some true, depth := some 2 } (by decide)

/-! ### Cached-query bookkeeping lemmas -/

/-- Every cached-query call appends exactly one entry to the query log. -/
theorem queryCached_queries (exec : ExecFn) (spec : MemberSpec) (t : Nat)
    (src : Option String) (st : SState) :
    ((queryBgpq4ExpandedASNsCached exec spec t src st).2).queries
      = st.queries ++ [(spec.name, t, src)] := by
  cases hfind : assocFind st.cache (cacheKey spec src) with
  | some h => simp [queryBgpq4ExpandedASNsCached, hfind]
  | none =>
    cases hq : queryBgpq4ExpandedASNs exec spec t src with
    | error e => simp [queryBgpq4ExpandedASNsCached, hfind, hq]
    | ok v => simp [queryBgpq4ExpandedASNsCached, hfind, hq]

/-- Counterexample for C3 as stated: with the supplied sources override
`""` (a supplied override whose string is empty), the primary query runs and
returns empty, yet no retry without the override is performed — the query log
holds exactly the one primary call and the member falls through to the
`onEmpty` (keep) policy. -/
theorem c3_retry_cex :
    (queryBgpq4ExpandedASNsCached execAllEmpty ⟨"AS-X", some true, none, none⟩ 20000
        (some "") initS).1 = .ok [] ∧
    (flattenMemberWithBgpq4 execAllEmpty ⟨"AS-X", some true, none, none⟩ {} (some "") initS).1
      = .ok ["AS-X"] ∧
    ((flattenMemberWithBgpq4 execAllEmpty ⟨"AS-X", some true, none, none⟩ {} (some "") initS).2).queries
      = [("AS-X", 20000, some "")] := by
  refine ⟨rfl, rfl, rfl⟩

/-- Claim C3 (amended): for a flat spec, when the supplied sources override
is non-empty (JS-truthy) and the primary cached query returns empty, flatten
performs exactly one retry with no source override and, when that retry is
non-empty, returns its result; with no sources override the flatten run
performs exactly one cached query (no retry); and on the claim's concrete
instance — `sources="SOURCEX"` empty, plain retry `["AS1","AS2"]` — flatten
returns `["AS1","AS2"]`. -/
theorem c3_retry_fallback :
    (∀ (exec : ExecFn) spec opts s st st1 st2 l,
        spec.flat = some true → s ≠ "" →
        queryBgpq4ExpandedASNsCached exec spec (opts.timeoutMs.getD 20000) (some s) st
          = (.ok [], st1) →
        queryBgpq4ExpandedASNsCached exec spec (opts.timeoutMs.getD 20000) none st1
          = (.ok l, st2) →
        l.length > 0 →
        flattenMemberWithBgpq4 exec spec opts (some s) st = (.ok l, st2)) ∧
    (∀ (exec : ExecFn) spec opts st,
        spec.flat = some true →
        ((flattenMemberWithBgpq4 exec spec opts none st).2).queries
          = st.queries ++ [(spec.name, opts.timeoutMs.getD 20000, none)]) ∧
    ((flattenMemberWithBgpq4 execSourcex ⟨"AS-X", some true, none, none⟩ {}
        (some "SOURCEX") initS).1 = .ok ["AS1", "AS2"]) := by
  refine ⟨?_, ?_, rfl⟩
  · intro exec spec opts s st st1 st2 l hflat hs h1 h2 hl
    have hb : (s == "") = false := by
      simp [hs]
    unfold flattenMemberWithBgpq4
    rw [hflat]
    simp only [Option.getD_some]
    rw [if_neg (by decide : ¬(true = false))]
    rw [h1]
    simp only [List.length_nil, gt_iff_lt, Nat.lt_irrefl, if_false, jsTruthyStr, hb,
      Bool.not_false, if_true]
    rw [h2]
    simp [hl]
  · intro exec spec opts st hflat
    unfold flattenMemberWithBgpq4
    rw [hflat]
    simp only [Option.getD_some]
    rw [if_neg (by decide : ¬(true = false))]
    cases hq : queryBgpq4ExpandedASNsCached exec spec (opts.timeoutMs.getD 20000) none st with
    | mk r st1 =>
      have hqs : st1.queries = st.queries ++ [(spec.name, opts.timeoutMs.getD 20000, none)] := by
        have := queryCached_queries exec spec (opts.timeoutMs.getD 20000) none st
        rw [hq] at this
        exact this
      cases r with
      | error e => simp [hq, hqs]
      | ok l =>
        by_cases hl : l.length > 0
        · simp [hq, hl, hqs]
        · simp only [hq, hl, jsTruthyStr, Bool.false_eq_true, if_neg, if_false]
          cases hoe : opts.onEmpty.getD OnEmptyPolicy.keep <;> simp [hoe, hqs, hl]

/-- Witness for the amended C3 at its concrete instance. -/
theorem c3_retry_fallback_witness :
    flattenMemberWithBgpq4 execSourcex ⟨"AS-X", some true, none, none⟩ {} (some "SOURCEX") initS
      = (.ok ["AS1", "AS2"],
         (queryBgpq4ExpandedASNsCached execSourcex ⟨"AS-X", some true, none, none⟩ 20000 none
           (queryBgpq4ExpandedASNsCached execSourcex ⟨"AS-X", some true, none, none⟩ 20000
             (some "SOURCEX") initS).2).2) :=
  c3_retry_fallback.1 execSourcex ⟨"AS-X", some true, none, none⟩ {} "SOURCEX" initS
    (queryBgpq4ExpandedASNsCached execSourcex ⟨"AS-X", some true, none, none⟩ 20000
      (some "SOURCEX") initS).2
    (queryBgpq4ExpandedASNsCached execSourcex ⟨"AS-X", some true, none, none⟩ 20000 none
      (queryBgpq4ExpandedASNsCached execSourcex ⟨"AS-X", some true, none, none⟩ 20000
        (some "SOURCEX") initS).2).2
    ["AS1", "AS2"] rfl (by decide) rfl rfl (by decide)

/-- Under an oracle whose every answer is `.ok []`, a cached query returns
`.ok []` and preserves the all-empty-cache invariant. -/
theorem queryCached_all_empty (exec : ExecFn) (hexec : ∀ args t, exec args t = .ok [])
    (spec : MemberSpec) (t : Nat) (src : Option String) (st : SState)
    (hst : ∀ k v, assocFind st.cache k = some v → v = .ok []) :
    (queryBgpq4ExpandedASNsCached exec spec t src st).1 = .ok [] ∧
    (∀ k v, assocFind ((queryBgpq4ExpandedASNsCached exec spec t src st).2).cache k = some v →
      v = .ok []) := by
  cases hfind : assocFind st.cache (cacheKey spec src) with
  | some h =>
    have hv := hst _ _ hfind
    constructor
    · simp [queryBgpq4ExpandedASNsCached, hfind, hv]
    · intro k v hk
      apply hst
      simpa [queryBgpq4ExpandedASNsCached, hfind] using hk
  | none =>
    have hq : queryBgpq4ExpandedASNs exec spec t src = .ok [] := hexec _ _
    constructor
    · simp [queryBgpq4ExpandedASNsCached, hfind, hq]
    · intro k v hk
      simp only [queryBgpq4ExpandedASNsCached, hfind, hq] at hk
      by_cases hkk : k = cacheKey spec src
      · subst hkk
        rw [assocFind_insert_self] at hk
        cases hk
        rfl
      · rw [assocFind_insert_ne _ _ _ _ hkk] at hk
        exact hst _ _ hk

/-- Under an all-empty oracle, a flat member's flatten result from the fresh
state is decided purely by the `onEmpty` policy. -/
theorem flatten_all_empty (exec : ExecFn) (hexec : ∀ args t, exec args t = .ok [])
    (spec : MemberSpec) (opts : FlattenOptions) (src : Option String)
    (hflat : spec.flat = some true) :
    (flattenMemberWithBgpq4 exec spec opts src initS).1
      = match opts.onEmpty.getD OnEmptyPolicy.keep with
        | OnEmptyPolicy.empty => .ok []
        | OnEmptyPolicy.error => .error (.emptyExpansion spec.name)
        | OnEmptyPolicy.keep => .ok [spec.name] := by
  have hinit : ∀ (k : String) v, assocFind initS.cache k = some v → v = .ok [] := by
    intro k v h
    cases h
  obtain ⟨h1, hinv1⟩ :=
    queryCached_all_empty exec hexec spec (opts.timeoutMs.getD 20000) src initS hinit
  unfold flattenMemberWithBgpq4
  rw [hflat]
  simp only [Option.getD_some]
  rw [if_neg (by decide : ¬(true = false))]
  cases hq : queryBgpq4ExpandedASNsCached exec spec (opts.timeoutMs.getD 20000) src initS with
  | mk r st1 =>
    rw [hq] at h1 hinv1
    simp only at h1
    subst h1
    cases hjs : jsTruthyStr src with
    | false =>
      simp only [hjs, Bool.false_eq_true, if_false]
      cases opts.onEmpty.getD OnEmptyPolicy.keep <;> rfl
    | true =>
      obtain ⟨h2, _⟩ :=
        queryCached_all_empty exec hexec spec (opts.timeoutMs.getD 20000) none st1 hinv1
      cases hq2 : queryBgpq4ExpandedASNsCached exec spec (opts.timeoutMs.getD 20000) none st1 with
      | mk r2 st2 =>
        rw [hq2] at h2
        simp only at h2
        subst h2
        simp only [hjs, if_true, hq2]
        cases opts.onEmpty.getD OnEmptyPolicy.keep <;> rfl

/-- Claim C4: for a flat spec whose adapter calls all return empty, the
flatten result is decided by `onEmpty`: default and `keep` return the literal
member name, `empty` returns nothing, `error` raises the empty-expansion
failure naming the member. -/
theorem c4_on_empty_policy (exec : ExecFn) (spec : MemberSpec) (tm : Option Nat)
    (src : Option String)
    (hflat : spec.flat = some true)
    (hexec : ∀ args t, exec args t = .ok []) :
    (flattenMemberWithBgpq4 exec spec ⟨tm, some OnEmptyPolicy.keep⟩ src initS).1
        = .ok [spec.name] ∧
    (flattenMemberWithBgpq4 exec spec ⟨tm, none⟩ src initS).1 = .ok [spec.name] ∧
    (flattenMemberWithBgpq4 exec spec ⟨tm, some OnEmptyPolicy.empty⟩ src initS).1 = .ok [] ∧
    (flattenMemberWithBgpq4 exec spec ⟨tm, some OnEmptyPolicy.error⟩ src initS).1
        = .error (.emptyExpansion spec.name) := by
  refine ⟨?_, ?_, ?_, ?_⟩ <;> rw [flatten_all_empty exec hexec spec _ src hflat] <;> rfl

/-- Witness for C4 at a concrete flat spec, sources override and timeout. -/
theorem c4_on_empty_policy_witness :
    (flattenMemberWithBgpq4 execAllEmpty ⟨"AS-X", some true, none, none⟩
        ⟨none, some OnEmptyPolicy.keep⟩ (some "Q") initS).1 = .ok ["AS-X"] ∧
    (flattenMemberWithBgpq4 execAllEmpty ⟨"AS-X", some true, none, none⟩
        ⟨none, none⟩ (some "Q") initS).1 = .ok ["AS-X"] ∧
    (flattenMemberWithBgpq4 execAllEmpty ⟨"AS-X", some true, none, none⟩
        ⟨none, some OnEmptyPolicy.empty⟩ (some "Q") initS).1 = .ok [] ∧
    (flattenMemberWithBgpq4 execAllEmpty ⟨"AS-X", some true, none, none⟩
        ⟨none, some OnEmptyPolicy.error⟩ (some "Q") initS).1
      = .error (.emptyExpansion "AS-X") :=
  c4_on_empty_policy execAllEmpty ⟨"AS-X", some true, none, none⟩ none (some "Q") rfl
    (fun _ _ => rfl)

/-! ### Deduplication lemmas -/

theorem mem_dedupFirstAux (x : String) : ∀ (xs seen : List String),
    x ∈ dedupFirstAux xs seen ↔ x ∈ xs ∧ x ∉ seen := by
  intro xs
  induction xs with
  | nil => intro seen; simp [dedupFirstAux]
  | cons y ys ih =>
    intro seen
    by_cases hy : y ∈ seen
    · rw [dedupFirstAux, if_pos hy, ih seen, List.mem_cons]
      constructor
      · exact fun ⟨h1, h2⟩ => ⟨Or.inr h1, h2⟩
      · rintro ⟨h1 | h1, h2⟩
        · exact absurd (by rw [h1]; exact hy) h2
        · exact ⟨h1, h2⟩
    · rw [dedupFirstAux, if_neg hy]
      simp only [List.mem_cons, ih (y :: seen)]
      constructor
      · rintro (rfl | ⟨h1, h2⟩)
        · exact ⟨Or.inl rfl, hy⟩
        · exact ⟨Or.inr h1, fun hs => h2 (Or.inr hs)⟩
      · rintro ⟨h1 | h1, h2⟩
        · exact Or.inl h1
        · by_cases hxy : x = y
          · exact Or.inl hxy
          · exact Or.inr ⟨h1, fun hs => hs.elim hxy h2⟩

theorem nodup_dedupFirstAux : ∀ (xs seen : List String), (dedupFirstAux xs seen).Nodup := by
  intro xs
  induction xs with
  | nil => intro seen; simp [dedupFirstAux]
  | cons y ys ih =>
    intro seen
    by_cases hy : y ∈ seen
    · rw [dedupFirstAux, if_pos hy]
      exact ih seen
    · rw [dedupFirstAux, if_neg hy]
      refine List.nodup_cons.mpr ⟨fun hmem => ?_, ih (y :: seen)⟩
      exact ((mem_dedupFirstAux y ys (y :: seen)).mp hmem).2 (List.mem_cons_self y seen)

theorem mem_dedupFirst (x : String) (xs : List String) : x ∈ dedupFirst xs ↔ x ∈ xs := by
  rw [dedupFirst, mem_dedupFirstAux]
  simp

theorem nodup_dedupFirst (xs : List String) : (dedupFirst xs).Nodup := nodup_dedupFirstAux xs []

/-! ### Determinism of cached queries under a cache faithful to the oracle -/

/-- With a key-deterministic oracle, a cached query from a faithful state
returns exactly the oracle's value and keeps the state faithful. -/
theorem queryCached_faithful (exec : ExecFn) (hdet : KeyDet exec) (t : Nat)
    (spec : MemberSpec) (src : Option String) (st : SState)
    (hst : CacheFaithful exec t st) :
    (queryBgpq4ExpandedASNsCached exec spec t src st).1 = queryBgpq4ExpandedASNs exec spec t src ∧
    CacheFaithful exec t (queryBgpq4ExpandedASNsCached exec spec t src st).2 := by
  cases hfind : assocFind st.cache (cacheKey spec src) with
  | some v =>
    have hv := hst _ _ hfind spec src rfl
    constructor
    · simp [queryBgpq4ExpandedASNsCached, hfind, hv]
    · intro k w hk spec' src' hkk
      apply hst k w _ spec' src' hkk
      simpa [queryBgpq4ExpandedASNsCached, hfind] using hk
  | none =>
    cases hq : queryBgpq4ExpandedASNs exec spec t src with
    | error e =>
      constructor
      · simp [queryBgpq4ExpandedASNsCached, hfind, hq]
      · intro k w hk spec' src' hkk
        simp only [queryBgpq4ExpandedASNsCached, hfind, hq] at hk
        by_cases hkey : k = cacheKey spec src
        · rw [hkey, assocFind_erase_self] at hk
          cases hk
        · rw [assocFind_erase_ne _ _ _ hkey] at hk
          exact hst k w hk spec' src' hkk
    | ok v =>
      constructor
      · simp [queryBgpq4ExpandedASNsCached, hfind, hq]
      · intro k w hk spec' src' hkk
        simp only [queryBgpq4ExpandedASNsCached, hfind, hq] at hk
        by_cases hkey : k = cacheKey spec src
        · subst hkey
          rw [assocFind_insert_self] at hk
          cases hk
          have harg := hdet spec' src' spec src t hkk
          unfold queryBgpq4ExpandedASNs
          rw [harg]
          exact hq.symm
        · rw [assocFind_insert_ne _ _ _ _ hkey] at hk
          exact hst k w hk spec' src' hkk

/-- With a key-deterministic oracle, the flatten result from any faithful
state equals the state-free `flattenValue`, and the state stays faithful. -/
theorem flatten_faithful (exec : ExecFn) (hdet : KeyDet exec) (spec : MemberSpec)
    (opts : FlattenOptions) (src : Option String) (st : SState)
    (hst : CacheFaithful exec (opts.timeoutMs.getD 20000) st) :
    (flattenMemberWithBgpq4 exec spec opts src st).1 = flattenValue exec spec opts src ∧
    CacheFaithful exec (opts.timeoutMs.getD 20000)
      (flattenMemberWithBgpq4 exec spec opts src st).2 := by
  by_cases hflat : spec.flat.getD false = false
  · constructor
    · simp [flattenMemberWithBgpq4, flattenValue, hflat]
    · simpa [flattenMemberWithBgpq4, hflat] using hst
  · obtain ⟨h1, hf1⟩ :=
      queryCached_faithful exec hdet (opts.timeoutMs.getD 20000) spec src st hst
    unfold flattenMemberWithBgpq4 flattenValue
    rw [if_neg hflat, if_neg hflat]
    cases hq : queryBgpq4ExpandedASNsCached exec spec (opts.timeoutMs.getD 20000) src st with
    | mk r st1 =>
      rw [hq] at h1 hf1
      simp only at h1 hf1
      rw [← h1]
      cases r with
      | error e => exact ⟨rfl, hf1⟩
      | ok l1 =>
        dsimp only
        by_cases hl1 : l1.length > 0
        · rw [if_pos hl1, if_pos hl1]
          exact ⟨rfl, hf1⟩
        · rw [if_neg hl1, if_neg hl1]
          cases hjs : jsTruthyStr src with
          | false =>
            simp only [Bool.false_eq_true, if_false]
            cases opts.onEmpty.getD OnEmptyPolicy.keep <;> exact ⟨rfl, hf1⟩
          | true =>
            simp only [eq_self_iff_true, if_true]
            obtain ⟨h2, hf2⟩ :=
              queryCached_faithful exec hdet (opts.timeoutMs.getD 20000) spec none st1 hf1
            cases hq2 : queryBgpq4ExpandedASNsCached exec spec (opts.timeoutMs.getD 20000)
                none st1 with
            | mk r2 st2 =>
              rw [hq2] at h2 hf2
              simp only at h2 hf2
              rw [← h2]
              cases r2 with
              | error e => exact ⟨rfl, hf2⟩
              | ok l2 =>
                dsimp only
                by_cases hl2 : l2.length > 0
                · rw [if_pos hl2, if_pos hl2]
                  exact ⟨rfl, hf2⟩
                · rw [if_neg hl2, if_neg hl2]
                  cases opts.onEmpty.getD OnEmptyPolicy.keep <;> exact ⟨rfl, hf2⟩

/-- With a key-deterministic oracle, the resolver's value from any faithful
state equals the state-free `resolveValue`. -/
theorem resolveGo_faithful (exec : ExecFn) (hdet : KeyDet exec) (opts : FlattenOptions)
    (dsrc : Option String) :
    ∀ (specs : List MemberSpec) (acc : List String) (st : SState),
    CacheFaithful exec (opts.timeoutMs.getD 20000) st →
    (resolveGo exec opts dsrc specs acc st).1 = resolveValue exec opts dsrc specs acc ∧
    CacheFaithful exec (opts.timeoutMs.getD 20000) (resolveGo exec opts dsrc specs acc st).2 := by
  intro specs
  induction specs with
  | nil =>
    intro acc st hst
    exact ⟨rfl, hst⟩
  | cons spec rest ih =>
    intro acc st hst
    obtain ⟨h1, hf1⟩ := flatten_faithful exec hdet spec opts (jsNullish spec.sources dsrc) st hst
    unfold resolveGo resolveValue
    cases hq : flattenMemberWithBgpq4 exec spec opts (jsNullish spec.sources dsrc) st with
    | mk r st1 =>
      rw [hq] at h1 hf1
      simp only at h1 hf1
      rw [← h1]
      cases r with
      | error e => exact ⟨rfl, hf1⟩
      | ok resolved => exact ih (acc ++ resolved) st1 hf1

/-- Membership characterization of a successful `resolveValue` run: the output
is the deduplicated union of the accumulator and the per-spec flatten values,
and it has no duplicates. -/
theorem resolveValue_mem (exec : ExecFn) (opts : FlattenOptions) (dsrc : Option String) :
    ∀ (specs : List MemberSpec) (acc out : List String),
    resolveValue exec opts dsrc specs acc = .ok out →
    (∀ x, x ∈ out ↔ x ∈ acc ∨ ∃ spec, spec ∈ specs ∧ ∃ r,
        flattenValue exec spec opts (jsNullish spec.sources dsrc) = .ok r ∧ x ∈ r) ∧
    out.Nodup := by
  intro specs
  induction specs with
  | nil =>
    intro acc out h
    injection h with h'
    constructor
    · intro x
      rw [← h', mem_dedupFirst]
      simp
    · rw [← h']
      exact nodup_dedupFirst acc
  | cons spec rest ih =>
    intro acc out h
    unfold resolveValue at h
    cases hf : flattenValue exec spec opts (jsNullish spec.sources dsrc) with
    | error e =>
      rw [hf] at h
      cases h
    | ok resolved =>
      rw [hf] at h
      simp only at h
      obtain ⟨hmem, hnd⟩ := ih (acc ++ resolved) out h
      refine ⟨fun x => ?_, hnd⟩
      rw [hmem x, List.mem_append]
      constructor
      · rintro ((hx | hx) | ⟨s, hs, r, hr, hxr⟩)
        · exact Or.inl hx
        · exact Or.inr ⟨spec, List.mem_cons_self spec rest, resolved, hf, hx⟩
        · exact Or.inr ⟨s, List.mem_cons_of_mem spec hs, r, hr, hxr⟩
      · rintro (hx | ⟨s, hs, r, hr, hxr⟩)
        · exact Or.inl (Or.inl hx)
        · rcases List.mem_cons.mp hs with rfl | hs'
          · rw [hf] at hr
            injection hr with hr'
            subst hr'
            exact Or.inl (Or.inr hxr)
          · exact Or.inr ⟨s, hs', r, hr, hxr⟩

/-- Counterexample for C6 as stated: the cache key `"x|1|S||"` is shared by
the member `x|1|S` (no depth, no sources) and the member `x` with depth 1 and
sources `S||`, so inside one resolve run the second member receives the first
member's cached expansion; its individually computed flatten differs, and the
resolve output is not the union of the individual flatten results. -/
theorem c6_resolve_union_cex :
    cacheKey specPipe none = cacheKey specCollide (some "S||") ∧
    (resolveMembers execLastArg [specPipe, specCollide] {} none initS).1 = .ok ["AS1"] ∧
    (flattenMemberWithBgpq4 execLastArg specCollide {}
        (jsNullish specCollide.sources none) initS).1 = .ok ["AS2"] ∧
    ¬ (∀ x, x ∈ ["AS1"] ↔ ∃ spec, spec ∈ [specPipe, specCollide] ∧ ∃ r,
        (flattenMemberWithBgpq4 execLastArg spec {}
          (jsNullish spec.sources none) initS).1 = .ok r ∧ x ∈ r) := by
  refine ⟨rfl, rfl, rfl, fun h => ?_⟩
  have h2 : ("AS2" : String) ∈ ["AS1"] :=
    (h "AS2").mpr ⟨specCollide, List.mem_cons_of_mem specPipe (List.mem_cons_self specCollide []),
      ["AS2"], rfl, List.mem_cons_self "AS2" []⟩
  exact absurd h2 (by decide)

/-- Claim C6 (amended): when the external tool's answers agree on colliding
cache keys (in particular whenever distinct query triples have distinct keys,
e.g. no `|` in names or source lists), the output of a successful resolve run,
viewed as a set, equals the union of the flatten results computed for each
spec individually (with each spec's own sources override falling back to the
default), with duplicates collapsed. -/
theorem c6_resolve_union (exec : ExecFn) (specs : List MemberSpec) (opts : FlattenOptions)
    (dsrc : Option String) (out : List String) (stf : SState)
    (hdet : KeyDet exec)
    (hres : resolveMembers exec specs opts dsrc initS = (.ok out, stf)) :
    (∀ x, x ∈ out ↔ ∃ spec, spec ∈ specs ∧ ∃ r,
        (flattenMemberWithBgpq4 exec spec opts (jsNullish spec.sources dsrc) initS).1 = .ok r ∧
        x ∈ r) ∧
    out.Nodup := by
  have hinitf : CacheFaithful exec (opts.timeoutMs.getD 20000) initS := by
    intro k v h
    cases h
  obtain ⟨hval, -⟩ := resolveGo_faithful exec hdet opts dsrc specs [] initS hinitf
  rw [show resolveMembers exec specs opts dsrc initS
      = resolveGo exec opts dsrc specs [] initS from rfl] at hres
  rw [hres] at hval
  simp only at hval
  obtain ⟨hmem, hnd⟩ := resolveValue_mem exec opts dsrc specs [] out hval.symm
  refine ⟨fun x => ?_, hnd⟩
  rw [hmem x]
  simp only [List.not_mem_nil, false_or]
  constructor
  · rintro ⟨s, hs, r, hr, hxr⟩
    obtain ⟨h1, -⟩ := flatten_faithful exec hdet s opts (jsNullish s.sources dsrc) initS hinitf
    refine ⟨s, hs, r, ?_, hxr⟩
    rw [h1, hr]
  · rintro ⟨s, hs, r, hr, hxr⟩
    obtain ⟨h1, -⟩ := flatten_faithful exec hdet s opts (jsNullish s.sources dsrc) initS hinitf
    refine ⟨s, hs, r, ?_, hxr⟩
    rw [← h1, hr]

/-- Witness for the amended C6: a constant successful oracle (trivially
key-deterministic), one flat and one literal member. -/
theorem c6_resolve_union_witness :
    (∀ x, x ∈ ["AS64500", "AS-BAR"] ↔
      ∃ spec, spec ∈ [(⟨"AS-FOO", some true, none, none⟩ : MemberSpec),
          ⟨"AS-BAR", none, none, none⟩] ∧ ∃ r,
        (flattenMemberWithBgpq4 execConst spec {} (jsNullish spec.sources none) initS).1
          = .ok r ∧ x ∈ r) ∧
    (["AS64500", "AS-BAR"] : List String).Nodup :=
  c6_resolve_union execConst
    [⟨"AS-FOO", some true, none, none⟩, ⟨"AS-BAR", none, none, none⟩] {} none
    ["AS64500", "AS-BAR"]
    (resolveMembers execConst
      [⟨"AS-FOO", some true, none, none⟩, ⟨"AS-BAR", none, none, none⟩] {} none initS).2
    (fun _ _ _ _ _ _ => rfl) rfl
